import Mathlib

/-!
Verification development for the pickle interpreter (a small TCL dialect,
src/pickle.h, src/main.c) and its fixed-size-class block pool allocator.
The interpreter core and the pool implementation are not part of the
sources seen here, only their header contracts, driver and constants are;
those parts are modelled from the specification, as are noted in their
doc comments.  Constants (string, recursion and argument limits, the
size-class table) come from src/pickle.h and src/main.c.
-/

set_option maxHeartbeats 1000000
set_option maxRecDepth 4000

namespace Pickle

/-- Maximum length of the interpreter result string, pickle.h line 47. -/
def PICKLE_MAX_STRING : Nat := 512

/-- Maximum evaluation nesting depth, pickle.h line 48. -/
def PICKLE_MAX_RECURSION : Nat := 512

/-- Maximum number of words in one command, pickle.h line 49. -/
def PICKLE_MAX_ARGS : Nat := 128

/-- Status codes of every evaluation step, mirroring the enum
PICKLE_OK, PICKLE_ERR, PICKLE_RETURN, PICKLE_BREAK, PICKLE_CONTINUE
of pickle.h line 66. -/
inductive Status where
  | ok | err | ret | brk | cont
deriving DecidableEq

/-- The status translation a procedure call applies at its boundary:
RETURN becomes OK, everything else is propagated unchanged. -/
def retToOk : Status → Status
  | .ret => .ok
  | r => r

/-- Modelled from the spec: a word is a concatenation of segments, each a
verbatim (brace or plain) literal, a variable substitution, or a nested
command substitution holding a full script (spec section 4.1). -/
inductive Seg where
  | lit : String → Seg
  | var : String → Seg
  | sub : List (List (List Seg)) → Seg

/-- A word: one argument, a concatenation of segments. -/
abbrev Word := List Seg

/-- A command: a list of words; word 0 is the command name. -/
abbrev Cmnd := List Word

/-- A script: a sequence of commands. -/
abbrev Script := List Cmnd

/-- A call frame: a mapping from variable name to value. -/
abbrev Frame := List (String × String)

/-- The native builtin commands the model carries (spec sections 4.3, 4.4:
set, return, break, continue, an expr-equivalent adder, and an identity
echo command used as a trivial host command). -/
inductive BuiltinId where
  | bset | bret | bbrk | bcont | badd | bid

/-- Modelled from the spec: a command-table entry is a native builtin or a
user-defined procedure with captured parameter list and body. -/
inductive Cmd where
  | builtin : BuiltinId → Cmd
  | proc : List String → Script → Cmd

/-- Modelled from the spec: the interpreter state: the call-frame chain
(innermost frame first), the command table, the current result, the
nesting-depth counter, and the count of allocator blocks owned by live
evaluation calls (argument vectors and call frames). -/
@[ext] structure Interp where
  frames : List Frame
  commands : List (String × Cmd)
  result : String
  level : Nat
  active : Nat

/-- Truncate a string to at most n bytes. -/
def strTake (s : String) (n : Nat) : String := String.mk (s.data.take n)

/-- pickle_set_result: store a result string, bounded by
PICKLE_MAX_STRING (spec section 3: the result is a single buffer of
bytes bounded by a maximum string length). -/
def pickle_set_result (i : Interp) (s : String) : Interp :=
  { i with result := strTake s PICKLE_MAX_STRING }

/-- Look a name up in one frame. -/
def frameLookup (fr : Frame) (n : String) : Option String :=
  match fr.find? (fun p => p.1 == n) with
  | some p => some p.2
  | none => none

/-- Modelled from the spec: walk the call-frame chain from the innermost
frame outward and return the first binding of the name (spec section
4.2). -/
def framesGet : List Frame → String → Option String
  | [], _ => none
  | fr :: rest, n =>
    match frameLookup fr n with
    | some v => some v
    | none => framesGet rest n

/-- pickle_get_var: variable lookup through the frame chain; none models
the undefined-variable error of the C interface (a NULL pointer). -/
def pickle_get_var (i : Interp) (n : String) : Option String :=
  framesGet i.frames n

/-- Create or update a binding inside one frame. -/
def frameSet : Frame → String → String → Frame
  | [], n, v => [(n, v)]
  | (m, w) :: rest, n, v =>
    if m == n then (n, v) :: rest else (m, w) :: frameSet rest n v

/-- pickle_set_var: create-or-update a binding in the current (innermost)
frame only (spec section 4.2). -/
def pickle_set_var (i : Interp) (n v : String) : Interp :=
  { i with frames :=
      match i.frames with
      | [] => []
      | fr :: rest => frameSet fr n v :: rest }

/-- Command-table lookup. -/
def cmdLookup : List (String × Cmd) → String → Option Cmd
  | [], _ => none
  | (m, c) :: rest, n => if m == n then some c else cmdLookup rest n

/-- Insert or replace a command-table entry (re-registration replaces,
spec section 3). -/
def cmdReplace : List (String × Cmd) → String → Cmd → List (String × Cmd)
  | [], n, c => [(n, c)]
  | (m, d) :: rest, n, c =>
    if m == n then (n, c) :: rest else (m, d) :: cmdReplace rest n c

/-- pickle_register_command. -/
def pickle_register_command (i : Interp) (n : String) (c : Cmd) : Interp :=
  { i with commands := cmdReplace i.commands n c }

/-- Register a user-defined procedure (captured parameters and body). -/
def defineProc (i : Interp) (n : String) (ps : List String) (body : Script) : Interp :=
  pickle_register_command i n (Cmd.proc ps body)

/-- Base-10 digit value. -/
def digitVal? (c : Char) : Option Nat :=
  if c.isDigit then some (c.toNat - 48) else none

/-- Base-10 accumulation over the characters of a word. -/
def parseNatCore : List Char → Nat → Option Nat
  | [], acc => some acc
  | c :: rest, acc =>
    match digitVal? c with
    | some d => parseNatCore rest (acc * 10 + d)
    | none => none

/-- Base-10 parse of a word; integers are exchanged as canonical base-10
text (spec section 6). -/
def strToNat? (s : String) : Option Nat :=
  match s.data with
  | [] => none
  | l => parseNatCore l 0

/-- Modelled from the spec: the native builtin handlers.  argv[0] has been
used for dispatch already; args holds the remaining words. -/
def runBuiltin (i : Interp) (b : BuiltinId) (args : List String) : Status × Interp :=
  match b, args with
  | .bset, [n, v] => (.ok, pickle_set_result (pickle_set_var i n v) v)
  | .bset, _ => (.err, pickle_set_result i "wrong number of arguments")
  | .bret, [] => (.ret, pickle_set_result i "")
  | .bret, [v] => (.ret, pickle_set_result i v)
  | .bret, _ => (.err, pickle_set_result i "wrong number of arguments")
  | .bbrk, [] => (.brk, i)
  | .bbrk, _ => (.err, pickle_set_result i "wrong number of arguments")
  | .bcont, [] => (.cont, i)
  | .bcont, _ => (.err, pickle_set_result i "wrong number of arguments")
  | .badd, [x, y] =>
    (match strToNat? x, strToNat? y with
     | some a, some c => (.ok, pickle_set_result i (Nat.repr (a + c)))
     | _, _ => (.err, pickle_set_result i "not a number"))
  | .badd, _ => (.err, pickle_set_result i "wrong number of arguments")
  | .bid, [v] => (.ok, pickle_set_result i v)
  | .bid, _ => (.err, pickle_set_result i "wrong number of arguments")

/-- Modelled from the spec: invoke a user-defined procedure: arity check,
push a frame binding formals to actuals positionally, evaluate the body
one level deeper, pop the frame on every exit path, and translate a
RETURN status into OK at the call boundary, preserving the returned
value (spec section 4.3). -/
def callProcAux (recur : Interp → Script → Status × Interp)
    (i : Interp) (ps : List String) (body : Script) (args : List String) :
    Status × Interp :=
  if args.length ≠ ps.length then
    (.err, pickle_set_result i "wrong number of arguments")
  else if PICKLE_MAX_RECURSION < i.level + 1 then
    (.err, pickle_set_result i "recursion limit exceeded")
  else
    match recur { i with frames := ps.zip args :: i.frames,
                         level := i.level + 1,
                         active := i.active + 1 } body with
    | (r, i2) =>
      let popped : Interp :=
        { i2 with frames := i2.frames.tail, level := i2.level - 1,
                  active := i2.active - 1 }
      match r with
      | .ret => (.ok, popped)
      | other => (other, popped)

/-- Modelled from the spec: resolve argv[0] in the command table and
invoke its handler; an unknown command name is an error (spec section
4.3). -/
def dispatchAux (recur : Interp → Script → Status × Interp)
    (i : Interp) (argv : List String) : Status × Interp :=
  match argv with
  | [] => (.ok, i)
  | name :: args =>
    match cmdLookup i.commands name with
    | none => (.err, pickle_set_result i "unknown command")
    | some (.builtin b) => runBuiltin i b args
    | some (.proc ps body) => callProcAux recur i ps body args

/-- Modelled from the spec: produce one word by concatenating its
segments; variable substitution consults the frame chain and an
undefined variable is an error, not an empty string; command
substitution evaluates the nested script one level deeper, capped by
PICKLE_MAX_RECURSION (spec section 4.1). -/
def substWordAux (recur : Interp → Script → Status × Interp) :
    Interp → List Seg → String → Status × Interp × String
  | i, [], acc => (.ok, i, acc)
  | i, Seg.lit s :: rest, acc => substWordAux recur i rest (acc ++ s)
  | i, Seg.var n :: rest, acc =>
    (match framesGet i.frames n with
     | some v => substWordAux recur i rest (acc ++ v)
     | none => (.err, pickle_set_result i "undefined variable", ""))
  | i, Seg.sub sc :: rest, acc =>
    if PICKLE_MAX_RECURSION < i.level + 1 then
      (.err, pickle_set_result i "recursion limit exceeded", "")
    else
      match recur { i with level := i.level + 1 } sc with
      | (.ok, i2) =>
        substWordAux recur { i2 with level := i2.level - 1 } rest (acc ++ i2.result)
      | (r, i2) => (r, { i2 with level := i2.level - 1 }, "")

/-- Evaluate each word of a command in turn, building the argument
vector; a failing word aborts the whole command. -/
def substWordsAux (recur : Interp → Script → Status × Interp) :
    Interp → List Word → List String → Status × Interp × List String
  | i, [], acc => (.ok, i, acc)
  | i, w :: rest, acc =>
    match substWordAux recur i w "" with
    | (.ok, i1, s) => substWordsAux recur i1 rest (acc ++ [s])
    | (r, i1, _) => (r, i1, [])

/-- Evaluate one command: build its argument vector, account for the argv
allocation, dispatch, and release the argv on every exit path (spec
section 5: buffers owned by the innermost call are released on every
exit path). -/
def evalCmdAux (recur : Interp → Script → Status × Interp)
    (i : Interp) (c : Cmnd) : Status × Interp :=
  match substWordsAux recur i c [] with
  | (.ok, i1, argv) =>
    (match dispatchAux recur { i1 with active := i1.active + 1 } argv with
     | (r, i2) => (r, { i2 with active := i2.active - 1 }))
  | (r, i1, _) => (r, i1)

/-- Evaluate the commands of a script in order, stopping at the first
non-OK status and propagating it unchanged to the caller (spec section
4.4). -/
def evalScriptAux (recur : Interp → Script → Status × Interp) :
    Interp → Script → Status × Interp
  | i, [] => (.ok, i)
  | i, c :: rest =>
    match evalCmdAux recur i c with
    | (.ok, i1) => evalScriptAux recur i1 rest
    | (r, i1) => (r, i1)

/-- Modelled from the spec: the recursive evaluator.  The fuel argument
decreases exactly at the nesting points (command substitution and
procedure calls); nesting is capped at PICKLE_MAX_RECURSION before each
recursive step, so fuel PICKLE_MAX_RECURSION + 2 is never exhausted
from a top-level state.  The result is reset at entry. -/
def evalScript : Nat → Interp → Script → Status × Interp
  | 0, i, _ => (.err, pickle_set_result i "fuel exhausted")
  | f + 1, i, s => evalScriptAux (evalScript f) (pickle_set_result i "") s

/-- Fuel supplied by the public entry point. -/
def FUEL : Nat := PICKLE_MAX_RECURSION + 2

/-- pickle_eval: evaluate a script; an uncaught BREAK or CONTINUE at top
level is itself reported as an error (spec section 4.4). -/
def pickle_eval (i : Interp) (s : Script) : Status × Interp :=
  match evalScript FUEL i s with
  | (.brk, i1) => (.err, pickle_set_result i1 "break outside loop")
  | (.cont, i1) => (.err, pickle_set_result i1 "continue outside loop")
  | r => r

/-- The command table of a freshly initialized interpreter. -/
def builtinCommands : List (String × Cmd) :=
  [("set", Cmd.builtin .bset), ("return", Cmd.builtin .bret),
   ("break", Cmd.builtin .bbrk), ("continue", Cmd.builtin .bcont),
   ("+", Cmd.builtin .badd), ("id", Cmd.builtin .bid)]

/-- A freshly initialized interpreter: one (top-level) frame, the builtin
command table, empty result, level 0. -/
def initInterp : Interp :=
  { frames := [[]], commands := builtinCommands, result := "",
    level := 0, active := 0 }

/-- The body of the end-to-end example procedure double. -/
def doubleBody : Script :=
  [[[Seg.lit "return"], [Seg.sub [[[Seg.lit "+"], [Seg.var "x"], [Seg.var "x"]]]]]]

/-- Interpreter with the procedure double registered. -/
def doubleInterp : Interp := defineProc initInterp "double" ["x"] doubleBody

/-- The invocation of double on 21. -/
def doubleCall : Script := [[[Seg.lit "double"], [Seg.lit "21"]]]

/-- The family of nested-command-substitution scripts: nest 0 is the
plain command id x, and nest (d+1) wraps nest d in one more command
substitution, so evaluating nest d needs nesting depth d. -/
def nest : Nat → Script
  | 0 => [[[Seg.lit "id"], [Seg.lit "x"]]]
  | d + 1 => [[[Seg.lit "id"], [Seg.sub (nest d)]]]

/-- Interpreter states reachable from a fresh interpreter through the
public operations. -/
inductive Reachable : Interp → Prop where
  | init : Reachable initInterp
  | eval : ∀ i s, Reachable i → Reachable (pickle_eval i s).2
  | setResult : ∀ i s, Reachable i → Reachable (pickle_set_result i s)
  | setVar : ∀ i n v, Reachable i → Reachable (pickle_set_var i n v)
  | register : ∀ i n c, Reachable i → Reachable (pickle_register_command i n c)

/-! The block pool allocator.  The implementation file (block.c) is not
among the sources; the model below is modelled from the specification
(sections 3, 4.5 and 6), with the size-class table taken verbatim from
src/main.c lines 636-644. -/

/-- A size-class specification: block size and block count, as in the
specs table of main.c. -/
structure pool_specification_t where
  blocksz : Nat
  count : Nat
deriving DecidableEq

/-- Modelled from the spec: one size-class arena: a contiguous region of
count blocks of blocksz bytes starting at base, a free bitmap (true =
free), and running counters. -/
structure block_arena_t where
  base : Nat
  blocksz : Nat
  bits : Nat
  freemap : List Bool
  active : Nat
  maxa : Nat
deriving DecidableEq

/-- Modelled from the spec: a pool: an ordered list of size-class arenas
plus running counters. -/
structure pool_t where
  arenas : List block_arena_t
  freed : Nat
  allocs : Nat
  relocations : Nat
  active : Nat
  maxp : Nat
  total : Nat
deriving DecidableEq

/-- Errors reported through the allocator's error channel; both are
InternalInvariantViolation cases in the spec's taxonomy (section 7). -/
inductive PoolErr where
  | notOwned
  | doubleFree
deriving DecidableEq

deriving instance DecidableEq for Except

/-- Lay the arenas out at ascending disjoint address ranges. -/
def mkArenas : Nat → List pool_specification_t → List block_arena_t
  | _, [] => []
  | base, s :: rest =>
    { base := base, blocksz := s.blocksz, bits := s.count,
      freemap := List.replicate s.count true, active := 0, maxa := 0 }
      :: mkArenas (base + s.blocksz * s.count) rest

/-- Specification validity: no zero-count class and strictly ascending
block sizes (spec section 6: construction fails if any class has zero
count or sizes are non-increasing). -/
def specsValid : List pool_specification_t → Bool
  | [] => true
  | [s] => 0 < s.count && 0 < s.blocksz
  | s :: t :: rest =>
    0 < s.count && 0 < s.blocksz && s.blocksz < t.blocksz && specsValid (t :: rest)

/-- pool_new: construct a pool from a size-class specification list. -/
def pool_new (specs : List pool_specification_t) : Option pool_t :=
  if specsValid specs then
    some { arenas := mkArenas 1 specs, freed := 0, allocs := 0,
           relocations := 0, active := 0, maxp := 0, total := 0 }
  else none

/-- Index of the first set (free) bit of a bitmap. -/
def firstFreeIdx : List Bool → Option Nat
  | [] => none
  | b :: rest => if b then some 0 else (firstFreeIdx rest).map (fun i => i + 1)

/-- Modelled from the spec: walk the arenas in ascending size order; the
first arena whose block size fits the request is the chosen class; scan
its bitmap for a free block; a full chosen class fails without falling
through to a larger class (spec section 4.5). -/
def arenasAlloc : List block_arena_t → Nat → Option (List block_arena_t × Nat)
  | [], _ => none
  | ar :: rest, sz =>
    if sz ≤ ar.blocksz then
      match firstFreeIdx ar.freemap with
      | none => none
      | some idx =>
        some ({ ar with freemap := ar.freemap.set idx false,
                        active := ar.active + 1,
                        maxa := max ar.maxa (ar.active + 1) } :: rest,
              ar.base + idx * ar.blocksz)
    else
      match arenasAlloc rest sz with
      | some (rest2, a) => some (ar :: rest2, a)
      | none => none

/-- pool_malloc: allocate from the smallest fitting size class, updating
the pool counters; fails cleanly when no class fits or the chosen class
has no free block. -/
def pool_malloc (p : pool_t) (sz : Nat) : Option (pool_t × Nat) :=
  match arenasAlloc p.arenas sz with
  | none => none
  | some (as2, a) =>
    some ({ p with arenas := as2, allocs := p.allocs + 1,
                   active := p.active + 1, maxp := max p.maxp (p.active + 1),
                   total := p.total + 1 }, a)

/-- Modelled from the spec: find the owning arena by address-range
containment and flip the block's bitmap bit back to free; an address
owned by no arena, or a block that is already free, is an error
reported through the error channel, never silently accepted (spec
section 4.5). -/
def arenasFree : List block_arena_t → Nat → Except PoolErr (List block_arena_t)
  | [], _ => .error .notOwned
  | ar :: rest, a =>
    if ar.base ≤ a ∧ a < ar.base + ar.blocksz * ar.bits then
      match ar.freemap.get? ((a - ar.base) / ar.blocksz) with
      | some false =>
        .ok ({ ar with freemap := ar.freemap.set ((a - ar.base) / ar.blocksz) true,
                       active := ar.active - 1 } :: rest)
      | some true => .error .doubleFree
      | none => .error .notOwned
    else
      match arenasFree rest a with
      | .ok rest2 => .ok (ar :: rest2)
      | .error e => .error e

/-- pool_free: release a block, updating the pool counters; errors are
reported, not swallowed. -/
def pool_free (p : pool_t) (a : Nat) : Except PoolErr pool_t :=
  match arenasFree p.arenas a with
  | .ok as2 => .ok { p with arenas := as2, freed := p.freed + 1,
                            active := p.active - 1 }
  | .error e => .error e

/-- First arena containing the address, by range containment. -/
def findOwner : List block_arena_t → Nat → Option block_arena_t
  | [], _ => none
  | ar :: rest, a =>
    if ar.base ≤ a ∧ a < ar.base + ar.blocksz * ar.bits then some ar
    else findOwner rest a

/-- Modelled from the spec: reallocate: if the new size fits the block's
current size class return the pointer unchanged; otherwise allocate in
the correct class, copy the lesser of the old and new sizes, release
the old block and return the new address; a failed allocation during
growth leaves the original block intact and signals failure (spec
section 4.5).  Byte memory is modelled as a function from addresses to
bytes. -/
def pool_realloc (p : pool_t) (mem : Nat → Nat) (a : Nat) (newsz : Nat) :
    Option (pool_t × (Nat → Nat) × Nat) :=
  match findOwner p.arenas a with
  | none => none
  | some ar =>
    if newsz ≤ ar.blocksz then some (p, mem, a)
    else
      match pool_malloc p newsz with
      | none => none
      | some (p1, a2) =>
        let mem2 : Nat → Nat := fun x =>
          if a2 ≤ x ∧ x < a2 + min ar.blocksz newsz then mem (a + (x - a2)) else mem x
        match pool_free p1 a with
        | .ok p2 => some ({ p2 with relocations := p2.relocations + 1 }, mem2, a2)
        | .error _ => none

/-- The size-class table of src/main.c lines 636-644. -/
def mainSpecs : List pool_specification_t :=
  [⟨8, 512⟩, ⟨16, 256⟩, ⟨32, 128⟩, ⟨64, 64⟩, ⟨128, 32⟩, ⟨256, 16⟩, ⟨512, 8⟩]

/-- The empty pool, used as a default for Option elimination. -/
def emptyPool : pool_t :=
  { arenas := [], freed := 0, allocs := 0, relocations := 0,
    active := 0, maxp := 0, total := 0 }

/-- The pool built from the main.c size-class table. -/
def mainPool : pool_t := (pool_new mainSpecs).getD emptyPool

/-- Allocate n blocks of the given size in sequence. -/
def mallocN : pool_t → Nat → Nat → Option pool_t
  | p, _, 0 => some p
  | p, sz, n + 1 =>
    match pool_malloc p sz with
    | some (p1, _) => mallocN p1 sz n
    | none => none

/-- Project the ok case of a pool result. -/
def exOk? : Except PoolErr pool_t → Option pool_t
  | .ok p => some p
  | .error _ => none

/-- The pool of the (512, 8) size class after all 8 of its blocks have
been allocated. -/
def fullPool : pool_t := (mallocN mainPool 512 8).getD emptyPool

/-- The full pool after one block of the (512, 8) class is released. -/
def afterFree (k : Nat) : pool_t :=
  (exOk? (pool_free fullPool (24577 + 512 * k))).getD emptyPool

/-- The pool after one 8-byte block has been allocated (at address 1). -/
def oneBlockPool : pool_t := ((pool_malloc mainPool 8).getD (emptyPool, 0)).1

/-- The pool after that block has been released again. -/
def freedPool : pool_t := (exOk? (pool_free oneBlockPool 1)).getD emptyPool

/-- Growth step of the reallocation scenario: allocate the 100-byte
target block while the 8-byte block at address 1 is live. -/
def growStep : pool_t × Nat := (pool_malloc oneBlockPool 100).getD (emptyPool, 0)

/-- The pool after the old 8-byte block is released by the growth. -/
def growFreed : pool_t := (exOk? (pool_free growStep.1 1)).getD emptyPool

/-- The arena owning address 1 in the one-block pool. -/
def owner1 : block_arena_t :=
  (findOwner oneBlockPool.arenas 1).getD ⟨0, 0, 0, [], 0, 0⟩

/-- The (512, 8) size class of the main.c pool. -/
def class512 : block_arena_t :=
  (mainPool.arenas.find? (fun x => decide (512 ≤ x.blocksz))).getD ⟨0, 0, 0, [], 0, 0⟩

/-- Modelled from the spec and the comment on pickle.h line 95: the
allocator argument of interpreter construction; the pool allocator of
main.c is the custom case. -/
inductive pickle_allocator_t where
  | defaultAlloc : pickle_allocator_t
  | custom : pool_t → pickle_allocator_t

/-- Modelled from the spec and pickle.h line 95 (if a == NULL the default
allocator is used): construct an interpreter; a missing allocator
argument selects the default general-purpose allocator and is not an
error.  The installed allocator is returned alongside the interpreter;
the core operations of the model consume no allocator (allocation
cannot fail in the model), which is the behave-the-same guarantee. -/
def pickle_new (a : Option pickle_allocator_t) :
    Status × pickle_allocator_t × Interp :=
  (.ok, a.getD pickle_allocator_t.defaultAlloc, initInterp)

/-- Components of the interpreter state preserved by evaluation: the
command table, the nesting level, the active allocation count, and the
shape of the frame chain (length and every frame but the innermost). -/
def Pres (i j : Interp) : Prop :=
  j.commands = i.commands ∧ j.level = i.level ∧ j.active = i.active ∧
  j.frames.length = i.frames.length ∧ j.frames.tail = i.frames.tail

/-- The result buffer is within the maximum string length. -/
def RB (i : Interp) : Prop := i.result.length ≤ PICKLE_MAX_STRING

/-! Helper lemmas about the bounded result buffer. -/

theorem strTake_of_le {s : String} {n : Nat} (h : s.length ≤ n) : strTake s n = s := by
  cases s with
  | mk data => exact congrArg String.mk (List.take_of_length_le h)

theorem strTake_length_le (s : String) (n : Nat) : (strTake s n).length ≤ n := by
  cases s with
  | mk data =>
    show (data.take n).length ≤ n
    rw [List.length_take]
    exact Nat.min_le_left n data.length

theorem setRes_small (i : Interp) (s : String) (h : s.length ≤ PICKLE_MAX_STRING) :
    pickle_set_result i s = { i with result := s } := by
  unfold pickle_set_result
  rw [strTake_of_le h]

@[simp] theorem setRes_e (i : Interp) :
    pickle_set_result i "" = { i with result := "" } :=
  setRes_small i "" (by decide)

@[simp] theorem setRes_x (i : Interp) :
    pickle_set_result i "x" = { i with result := "x" } :=
  setRes_small i "x" (by decide)

@[simp] theorem setRes_rle (i : Interp) :
    pickle_set_result i "recursion limit exceeded"
      = { i with result := "recursion limit exceeded" } :=
  setRes_small i "recursion limit exceeded" (by decide)

@[simp] theorem setRes_uv (i : Interp) :
    pickle_set_result i "undefined variable"
      = { i with result := "undefined variable" } :=
  setRes_small i "undefined variable" (by decide)

@[simp] theorem setRes_bol (i : Interp) :
    pickle_set_result i "break outside loop"
      = { i with result := "break outside loop" } :=
  setRes_small i "break outside loop" (by decide)

@[simp] theorem setRes_col (i : Interp) :
    pickle_set_result i "continue outside loop"
      = { i with result := "continue outside loop" } :=
  setRes_small i "continue outside loop" (by decide)

/-! Preservation: every evaluation step preserves the command table, the
nesting level, the active allocation count, and the shape of the frame
chain (its length and every frame but the innermost).  This is the
stack discipline of spec section 3 together with the release-on-every-
exit-path discipline of spec section 5. -/

theorem pres_refl (i : Interp) : Pres i i := ⟨rfl, rfl, rfl, rfl, rfl⟩

theorem pres_trans {i j k : Interp} (h1 : Pres i j) (h2 : Pres j k) : Pres i k :=
  ⟨h2.1.trans h1.1, h2.2.1.trans h1.2.1, h2.2.2.1.trans h1.2.2.1,
   h2.2.2.2.1.trans h1.2.2.2.1, h2.2.2.2.2.trans h1.2.2.2.2⟩

theorem pres_setRes (i : Interp) (s : String) : Pres i (pickle_set_result i s) :=
  ⟨rfl, rfl, rfl, rfl, rfl⟩

theorem pres_setVar (i : Interp) (n v : String) : Pres i (pickle_set_var i n v) := by
  unfold pickle_set_var
  cases hf : i.frames with
  | nil => exact ⟨rfl, rfl, rfl, by simp [hf], by simp [hf]⟩
  | cons fr rest => exact ⟨rfl, rfl, rfl, by simp [hf], by simp [hf]⟩

theorem pres_runBuiltin (i : Interp) (b : BuiltinId) (args : List String) :
    Pres i (runBuiltin i b args).2 := by
  rcases b with _ | _ | _ | _ | _ | _ <;>
    rcases args with _ | ⟨x, _ | ⟨y, _ | ⟨z, rest⟩⟩⟩ <;>
      simp only [runBuiltin] <;>
      first
        | exact pres_refl i
        | exact pres_setRes i _
        | exact pres_trans (pres_setVar i _ _) (pres_setRes _ _)
        | (rcases hx : strToNat? x with _ | a <;> rcases hy : strToNat? y with _ | c <;>
            simp only [hx, hy] <;> exact pres_setRes i _)

theorem pres_callProc (recur : Interp → Script → Status × Interp)
    (hrec : ∀ i s, Pres i (recur i s).2)
    (i : Interp) (ps : List String) (body : Script) (args : List String) :
    Pres i (callProcAux recur i ps body args).2 := by
  unfold callProcAux
  split
  · exact pres_setRes i _
  split
  · exact pres_setRes i _
  rcases hre : recur { i with frames := ps.zip args :: i.frames,
                              level := i.level + 1,
                              active := i.active + 1 } body with ⟨r, i2⟩
  have hp := hrec { i with frames := ps.zip args :: i.frames,
                           level := i.level + 1,
                           active := i.active + 1 } body
  rw [hre] at hp
  obtain ⟨hc, hl, ha, hfl, hft⟩ := hp
  dsimp only at hc hl ha hfl hft
  simp only [List.tail_cons] at hft
  have hpop : Pres i { i2 with frames := i2.frames.tail, level := i2.level - 1,
                               active := i2.active - 1 } := by
    refine ⟨hc, ?_, ?_, ?_, ?_⟩
    · dsimp only; omega
    · dsimp only; omega
    · dsimp only; rw [hft]
    · dsimp only; rw [hft]
  cases r <;> exact hpop

theorem pres_dispatch (recur : Interp → Script → Status × Interp)
    (hrec : ∀ i s, Pres i (recur i s).2)
    (i : Interp) (argv : List String) :
    Pres i (dispatchAux recur i argv).2 := by
  cases argv with
  | nil => exact pres_refl i
  | cons name args =>
    cases hc : cmdLookup i.commands name with
    | none =>
      simp only [dispatchAux, hc]
      exact pres_setRes i _
    | some c =>
      cases c with
      | builtin b =>
        simp only [dispatchAux, hc]
        exact pres_runBuiltin i b args
      | proc ps body =>
        simp only [dispatchAux, hc]
        exact pres_callProc recur hrec i ps body args

theorem pres_substWord (recur : Interp → Script → Status × Interp)
    (hrec : ∀ i s, Pres i (recur i s).2) :
    ∀ (segs : List Seg) (i : Interp) (acc : String),
      Pres i (substWordAux recur i segs acc).2.1 := by
  intro segs
  induction segs with
  | nil => intro i acc; exact pres_refl i
  | cons sg rest ih =>
    intro i acc
    cases sg with
    | lit s =>
      simp only [substWordAux]
      exact ih i (acc ++ s)
    | var n =>
      simp only [substWordAux]
      cases hv : framesGet i.frames n with
      | some v => exact ih i (acc ++ v)
      | none => exact pres_setRes i _
    | sub sc =>
      simp only [substWordAux]
      split
      · exact pres_setRes i _
      · rcases hre : recur { i with level := i.level + 1 } sc with ⟨r, i2⟩
        have hp := hrec { i with level := i.level + 1 } sc
        rw [hre] at hp
        obtain ⟨hc, hl, ha, hfl, hft⟩ := hp
        dsimp only at hc hl ha hfl hft
        have hmid : Pres i { i2 with level := i2.level - 1 } := by
          refine ⟨hc, ?_, ha, hfl, hft⟩
          dsimp only; omega
        cases r with
        | ok => exact pres_trans hmid (ih _ _)
        | err => exact hmid
        | ret => exact hmid
        | brk => exact hmid
        | cont => exact hmid

theorem pres_substWords (recur : Interp → Script → Status × Interp)
    (hrec : ∀ i s, Pres i (recur i s).2) :
    ∀ (ws : List Word) (i : Interp) (acc : List String),
      Pres i (substWordsAux recur i ws acc).2.1 := by
  intro ws
  induction ws with
  | nil => intro i acc; exact pres_refl i
  | cons w rest ih =>
    intro i acc
    simp only [substWordsAux]
    rcases h1 : substWordAux recur i w "" with ⟨r, i1, s⟩
    have hp := pres_substWord recur hrec w i ""
    rw [h1] at hp
    cases r with
    | ok => exact pres_trans hp (ih i1 _)
    | err => exact hp
    | ret => exact hp
    | brk => exact hp
    | cont => exact hp

theorem pres_evalCmd (recur : Interp → Script → Status × Interp)
    (hrec : ∀ i s, Pres i (recur i s).2)
    (i : Interp) (c : Cmnd) :
    Pres i (evalCmdAux recur i c).2 := by
  unfold evalCmdAux
  rcases hw : substWordsAux recur i c [] with ⟨r, i1, argv⟩
  have hp := pres_substWords recur hrec c i []
  rw [hw] at hp
  cases r with
  | ok =>
    dsimp only
    rcases hd : dispatchAux recur { i1 with active := i1.active + 1 } argv with ⟨r2, i2⟩
    have hp2 := pres_dispatch recur hrec { i1 with active := i1.active + 1 } argv
    rw [hd] at hp2
    obtain ⟨hc1, hl1, ha1, hfl1, hft1⟩ := hp
    obtain ⟨hc2, hl2, ha2, hfl2, hft2⟩ := hp2
    dsimp only at hc1 hl1 ha1 hfl1 hft1 hc2 hl2 ha2 hfl2 hft2
    refine ⟨hc2.trans hc1, hl2.trans hl1, ?_, hfl2.trans hfl1, hft2.trans hft1⟩
    dsimp only
    omega
  | err => exact hp
  | ret => exact hp
  | brk => exact hp
  | cont => exact hp

theorem pres_evalScriptAux (recur : Interp → Script → Status × Interp)
    (hrec : ∀ i s, Pres i (recur i s).2) :
    ∀ (s : Script) (i : Interp), Pres i (evalScriptAux recur i s).2 := by
  intro s
  induction s with
  | nil => intro i; exact pres_refl i
  | cons c rest ih =>
    intro i
    simp only [evalScriptAux]
    rcases h1 : evalCmdAux recur i c with ⟨r, i1⟩
    have hp := pres_evalCmd recur hrec i c
    rw [h1] at hp
    cases r with
    | ok => exact pres_trans hp (ih i1)
    | err => exact hp
    | ret => exact hp
    | brk => exact hp
    | cont => exact hp

theorem pres_evalScript : ∀ (f : Nat) (i : Interp) (s : Script),
    Pres i (evalScript f i s).2 := by
  intro f
  induction f with
  | zero => intro i s; exact pres_setRes i _
  | succ f ih =>
    intro i s
    exact pres_trans (pres_setRes i "")
      (pres_evalScriptAux (evalScript f) ih s (pickle_set_result i ""))

/-! Evaluation of the nested-command-substitution family. -/

theorem str_empty_append (s : String) : "" ++ s = s := by
  cases s with
  | mk data => exact congrArg String.mk (List.nil_append data)

theorem evalScript_succ (f : Nat) (i : Interp) (s : Script) :
    evalScript (f + 1) i s = evalScriptAux (evalScript f) (pickle_set_result i "") s := rfl

theorem cmdLookup_replace :
    ∀ (l : List (String × Cmd)) (n : String) (c : Cmd),
      cmdLookup (cmdReplace l n c) n = some c := by
  intro l n c
  induction l with
  | nil => simp [cmdReplace, cmdLookup]
  | cons p rest ih =>
    rcases p with ⟨m, d⟩
    by_cases h : (m == n) = true
    · simp [cmdReplace, cmdLookup, h]
    · simp only [Bool.not_eq_true] at h
      simp [cmdReplace, cmdLookup, h, ih]

theorem nest_ok :
    ∀ (d F : Nat) (i : Interp),
      cmdLookup i.commands "id" = some (Cmd.builtin .bid) →
      i.level + d ≤ PICKLE_MAX_RECURSION →
      d + 1 ≤ F →
      evalScript F i (nest d) = (.ok, { i with result := "x" }) := by
  intro d
  induction d with
  | zero =>
    intro F i hcmd hlv hF
    obtain ⟨F', rfl⟩ : ∃ F', F = F' + 1 := ⟨F - 1, by omega⟩
    obtain ⟨fr, cm, res, lv, ac⟩ := i
    dsimp only at hcmd
    rw [evalScript_succ]
    simp only [nest, setRes_e]
    simp only [evalScriptAux, evalCmdAux, substWordsAux, substWordAux, str_empty_append,
      List.nil_append, List.cons_append, dispatchAux, hcmd, runBuiltin, setRes_x,
      Nat.add_sub_cancel]
  | succ d ih =>
    intro F i hcmd hlv hF
    obtain ⟨F', rfl⟩ : ∃ F', F = F' + 1 := ⟨F - 1, by omega⟩
    obtain ⟨fr, cm, res, lv, ac⟩ := i
    dsimp only at hcmd hlv
    rw [evalScript_succ]
    simp only [nest, setRes_e]
    have hifc : ¬ (PICKLE_MAX_RECURSION < lv + 1) := by
      unfold PICKLE_MAX_RECURSION at hlv ⊢
      omega
    simp only [evalScriptAux, evalCmdAux, substWordsAux, substWordAux, str_empty_append,
      List.nil_append, List.cons_append, hifc, if_false, ite_false]
    rw [ih F' ⟨fr, cm, "", lv + 1, ac⟩ hcmd (by dsimp only; omega) (by omega)]
    simp only [evalScriptAux, evalCmdAux, substWordsAux, substWordAux, str_empty_append,
      List.nil_append, List.cons_append, dispatchAux, hcmd, runBuiltin, setRes_x,
      Nat.add_sub_cancel]

theorem nest_err :
    ∀ (e F : Nat) (i : Interp),
      i.level + e = PICKLE_MAX_RECURSION →
      e + 2 ≤ F →
      evalScript F i (nest (e + 1))
        = (.err, { i with result := "recursion limit exceeded" }) := by
  intro e
  induction e with
  | zero =>
    intro F i hlv hF
    obtain ⟨F', rfl⟩ : ∃ F', F = F' + 1 := ⟨F - 1, by omega⟩
    obtain ⟨fr, cm, res, lv, ac⟩ := i
    dsimp only at hlv
    rw [evalScript_succ]
    simp only [nest, setRes_e]
    have hifc : PICKLE_MAX_RECURSION < lv + 1 := by
      unfold PICKLE_MAX_RECURSION at hlv ⊢
      omega
    simp only [evalScriptAux, evalCmdAux, substWordsAux, substWordAux, str_empty_append,
      hifc, if_true, ite_true, setRes_rle]
  | succ e ih =>
    intro F i hlv hF
    obtain ⟨F', rfl⟩ : ∃ F', F = F' + 1 := ⟨F - 1, by omega⟩
    obtain ⟨fr, cm, res, lv, ac⟩ := i
    dsimp only at hlv
    rw [evalScript_succ]
    rw [nest]
    simp only [setRes_e]
    have hifc : ¬ (PICKLE_MAX_RECURSION < lv + 1) := by
      unfold PICKLE_MAX_RECURSION at hlv ⊢
      omega
    simp only [evalScriptAux, evalCmdAux, substWordsAux, substWordAux, str_empty_append,
      hifc, if_false, ite_false]
    rw [ih F' ⟨fr, cm, "", lv + 1, ac⟩ (by dsimp only; omega) (by omega)]
    simp only [evalScriptAux, evalCmdAux, substWordsAux, substWordAux,
      Nat.add_sub_cancel]

theorem fuel_eq : FUEL = PICKLE_MAX_RECURSION + 2 := rfl

theorem callProc_noret (recur : Interp → Script → Status × Interp)
    (i : Interp) (ps : List String) (body : Script) (args : List String)
    (r2 : Status) (i2 : Interp)
    (hlen : args.length = ps.length)
    (hlv : ¬ PICKLE_MAX_RECURSION < i.level + 1)
    (hb : recur { i with frames := ps.zip args :: i.frames, level := i.level + 1,
                         active := i.active + 1 } body = (r2, i2))
    (hr : r2 ≠ .ret) :
    callProcAux recur i ps body args
      = (r2, { i2 with frames := i2.frames.tail, level := i2.level - 1,
                       active := i2.active - 1 }) := by
  unfold callProcAux
  rw [if_neg (by simp [hlen])]
  rw [if_neg hlv]
  rw [hb]
  cases r2 with
  | ret => exact absurd rfl hr
  | ok => rfl
  | err => rfl
  | brk => rfl
  | cont => rfl

/-- C2: nesting command substitutions up to the recursion limit
(PICKLE_MAX_RECURSION = 512) evaluates successfully; depth limit + 1
fails with a recursion-limit-exceeded error that reaches the top-level
caller of pickle_eval, including through an intervening procedure-call
handler; and the active allocation count afterwards equals its value
before the call. -/
theorem c2_recursion_limit :
    ∀ i : Interp, i.level = 0 →
      cmdLookup i.commands "id" = some (Cmd.builtin .bid) →
      (∀ d, d ≤ PICKLE_MAX_RECURSION →
        pickle_eval i (nest d) = (.ok, { i with result := "x" }) ∧
        (pickle_eval i (nest d)).2.active = i.active) ∧
      (pickle_eval i (nest (PICKLE_MAX_RECURSION + 1))
          = (.err, { i with result := "recursion limit exceeded" }) ∧
        (pickle_eval i (nest (PICKLE_MAX_RECURSION + 1))).2.active = i.active) ∧
      (∀ j : Interp, j.level = 0 →
        pickle_eval (defineProc j "deep" [] (nest PICKLE_MAX_RECURSION))
            [[[Seg.lit "deep"]]]
          = (.err, { defineProc j "deep" [] (nest PICKLE_MAX_RECURSION) with
                       result := "recursion limit exceeded" })) := by
  intro i hl0 hcmd
  have hFU : FUEL = PICKLE_MAX_RECURSION + 2 := rfl
  refine ⟨?_, ?_, ?_⟩
  · intro d hd
    have hok := nest_ok d FUEL i hcmd (by omega) (by omega)
    constructor
    · unfold pickle_eval
      rw [hok]
    · unfold pickle_eval
      rw [hok]
  · have herr := nest_err PICKLE_MAX_RECURSION FUEL i (by omega) (by omega)
    constructor
    · unfold pickle_eval
      rw [herr]
    · unfold pickle_eval
      rw [herr]
  · intro j hjl
    obtain ⟨fr, cm, res, lv, ac⟩ := j
    dsimp only at hjl
    subst hjl
    unfold pickle_eval
    rw [show FUEL = (PICKLE_MAX_RECURSION + 1) + 1 from rfl]
    rw [evalScript_succ]
    simp only [defineProc, pickle_register_command, setRes_e]
    simp only [evalScriptAux]
    simp only [evalCmdAux]
    simp only [substWordsAux, substWordAux, str_empty_append, List.nil_append,
      List.cons_append]
    simp only [dispatchAux]
    simp only [cmdLookup_replace]
    have hb : evalScript (PICKLE_MAX_RECURSION + 1)
        { frames := List.zip ([] : List String) ([] : List String) ::
            (⟨fr, cmdReplace cm "deep" (Cmd.proc [] (nest PICKLE_MAX_RECURSION)),
              "", 0, ac + 1⟩ : Interp).frames,
          commands := cmdReplace cm "deep" (Cmd.proc [] (nest PICKLE_MAX_RECURSION)),
          result := "", level := 0 + 1, active := ac + 1 + 1 }
        (nest PICKLE_MAX_RECURSION)
        = (.err,
           { frames := List.zip ([] : List String) ([] : List String) ::
               (⟨fr, cmdReplace cm "deep" (Cmd.proc [] (nest PICKLE_MAX_RECURSION)),
                 "", 0, ac + 1⟩ : Interp).frames,
             commands := cmdReplace cm "deep" (Cmd.proc [] (nest PICKLE_MAX_RECURSION)),
             result := "recursion limit exceeded", level := 0 + 1,
             active := ac + 1 + 1 }) := by
      rw [show nest PICKLE_MAX_RECURSION = nest (511 + 1) from rfl]
      exact nest_err 511 (PICKLE_MAX_RECURSION + 1) _ (by dsimp only; decide) (by decide)
    rw [callProc_noret (evalScript (PICKLE_MAX_RECURSION + 1))
      ⟨fr, cmdReplace cm "deep" (Cmd.proc [] (nest PICKLE_MAX_RECURSION)), "", 0, ac + 1⟩
      [] (nest PICKLE_MAX_RECURSION) [] .err _ rfl (by dsimp only; decide) hb (by simp)]
    simp only [List.tail_cons, Nat.add_sub_cancel]

/-- C1: invoking a user-defined procedure with a matching number of
arguments binds the formals positionally in a fresh frame, evaluates
the captured body there, pops the frame (restoring the frame chain,
nesting level and active allocation count) on every exit path, and
translates a RETURN status from the body into OK while preserving the
returned value; concretely, after defining double x as return of
x + x, evaluating double 21 yields result 42 with status ok. -/
theorem c1_proc_invocation :
    (∀ (f : Nat) (i : Interp) (ps : List String) (body : Script) (args : List String),
      args.length = ps.length →
      i.level + 1 ≤ PICKLE_MAX_RECURSION →
      (callProcAux (evalScript f) i ps body args).2.frames = i.frames ∧
      (callProcAux (evalScript f) i ps body args).2.level = i.level ∧
      (callProcAux (evalScript f) i ps body args).2.active = i.active ∧
      ((evalScript f { i with frames := ps.zip args :: i.frames, level := i.level + 1,
                              active := i.active + 1 } body).1 = .ret →
        (callProcAux (evalScript f) i ps body args).1 = .ok ∧
        (callProcAux (evalScript f) i ps body args).2.result
          = (evalScript f { i with frames := ps.zip args :: i.frames,
                                   level := i.level + 1,
                                   active := i.active + 1 } body).2.result)) ∧
    pickle_eval doubleInterp doubleCall = (.ok, { doubleInterp with result := "42" }) := by
  constructor
  · intro f i ps body args hlen hlv
    rcases hb : evalScript f { i with frames := ps.zip args :: i.frames,
                                      level := i.level + 1,
                                      active := i.active + 1 } body with ⟨rb, ib⟩
    have hp := pres_evalScript f { i with frames := ps.zip args :: i.frames,
                                          level := i.level + 1,
                                          active := i.active + 1 } body
    rw [hb] at hp
    obtain ⟨hc, hl, ha, hfl, hft⟩ := hp
    dsimp only at hc hl ha hfl hft
    simp only [List.tail_cons] at hft
    have hcp : callProcAux (evalScript f) i ps body args
        = (retToOk rb,
           { ib with frames := ib.frames.tail, level := ib.level - 1,
                     active := ib.active - 1 }) := by
      unfold callProcAux
      rw [if_neg (by simp [hlen])]
      rw [if_neg (by omega)]
      rw [hb]
      cases rb <;> rfl
    rw [hcp]
    refine ⟨?_, ?_, ?_, ?_⟩
    · dsimp only
      rw [hft]
    · dsimp only
      omega
    · dsimp only
      omega
    · intro hret
      dsimp only at hret
      subst hret
      exact ⟨rfl, rfl⟩
  · rfl

/-- C5: variable lookup walks the call-frame chain from the innermost
frame outward and returns the first binding found; a name bound by no
frame in the chain is an undefined-variable error during substitution,
not an empty string. -/
theorem c5_variable_lookup :
    (∀ (fr : Frame) (rest : List Frame) (n v : String),
      frameLookup fr n = some v → framesGet (fr :: rest) n = some v) ∧
    (∀ (fr : Frame) (rest : List Frame) (n : String),
      frameLookup fr n = none → framesGet (fr :: rest) n = framesGet rest n) ∧
    (∀ (i : Interp) (n : String), pickle_get_var i n = framesGet i.frames n) ∧
    (∀ (i : Interp) (n : String) (f : Nat),
      pickle_get_var i n = none →
      (evalScript (f + 1) i [[[Seg.var n]]]).1 = .err ∧
      (evalScript (f + 1) i [[[Seg.var n]]]).2.result = "undefined variable") := by
  refine ⟨?_, ?_, ?_, ?_⟩
  · intro fr rest n v h
    simp [framesGet, h]
  · intro fr rest n h
    simp [framesGet, h]
  · intro i n
    rfl
  · intro i n f h
    obtain ⟨fr, cm, res, lv, ac⟩ := i
    unfold pickle_get_var at h
    dsimp only at h
    rw [evalScript_succ]
    simp only [setRes_e]
    simp only [evalScriptAux, evalCmdAux, substWordsAux, substWordAux]
    rw [h]
    simp [setRes_uv]

/-- C7: a BREAK or CONTINUE status reaching top-level evaluation is
reported as an error naming break or continue outside a loop; it is
neither discarded nor returned as BREAK or CONTINUE to the caller of
pickle_eval. -/
theorem c7_break_toplevel :
    (∀ (i : Interp) (s : Script),
      (pickle_eval i s).1 ≠ .brk ∧ (pickle_eval i s).1 ≠ .cont) ∧
    (∀ (i : Interp) (s : Script),
      (evalScript FUEL i s).1 = .brk →
      pickle_eval i s
        = (.err, pickle_set_result (evalScript FUEL i s).2 "break outside loop")) ∧
    (∀ (i : Interp) (s : Script),
      (evalScript FUEL i s).1 = .cont →
      pickle_eval i s
        = (.err, pickle_set_result (evalScript FUEL i s).2 "continue outside loop")) ∧
    (pickle_eval initInterp [[[Seg.lit "break"]]]).1 = .err ∧
    (pickle_eval initInterp [[[Seg.lit "break"]]]).2.result = "break outside loop" ∧
    (pickle_eval initInterp [[[Seg.lit "continue"]]]).1 = .err ∧
    (pickle_eval initInterp [[[Seg.lit "continue"]]]).2.result
      = "continue outside loop" := by
  refine ⟨?_, ?_, ?_, by decide, by decide, by decide, by decide⟩
  · intro i s
    unfold pickle_eval
    rcases h : evalScript FUEL i s with ⟨r, i1⟩
    cases r <;> exact ⟨by simp, by simp⟩
  · intro i s h
    unfold pickle_eval
    rcases hsc : evalScript FUEL i s with ⟨r, i1⟩
    rw [hsc] at h
    dsimp only at h
    subst h
    rfl
  · intro i s h
    unfold pickle_eval
    rcases hsc : evalScript FUEL i s with ⟨r, i1⟩
    rw [hsc] at h
    dsimp only at h
    subst h
    rfl

/-! Result boundedness: every operation keeps the result within
PICKLE_MAX_STRING bytes. -/

theorem rb_setRes (i : Interp) (s : String) : RB (pickle_set_result i s) :=
  strTake_length_le s PICKLE_MAX_STRING

theorem rb_runBuiltin (i : Interp) (b : BuiltinId) (args : List String)
    (hi : RB i) : RB (runBuiltin i b args).2 := by
  rcases b with _ | _ | _ | _ | _ | _ <;>
    rcases args with _ | ⟨x, _ | ⟨y, _ | ⟨z, rest⟩⟩⟩ <;>
      simp only [runBuiltin] <;>
      first
        | exact hi
        | exact rb_setRes _ _
        | (rcases hx : strToNat? x with _ | a <;> rcases hy : strToNat? y with _ | c <;>
            simp only [hx, hy] <;> exact rb_setRes _ _)

theorem rb_callProc (recur : Interp → Script → Status × Interp)
    (hrec : ∀ i s, RB (recur i s).2)
    (i : Interp) (ps : List String) (body : Script) (args : List String) :
    RB (callProcAux recur i ps body args).2 := by
  unfold callProcAux
  split
  · exact rb_setRes i _
  split
  · exact rb_setRes i _
  rcases hre : recur { i with frames := ps.zip args :: i.frames,
                              level := i.level + 1,
                              active := i.active + 1 } body with ⟨r, i2⟩
  have hp := hrec { i with frames := ps.zip args :: i.frames,
                           level := i.level + 1,
                           active := i.active + 1 } body
  rw [hre] at hp
  cases r <;> exact hp

theorem rb_dispatch (recur : Interp → Script → Status × Interp)
    (hrec : ∀ i s, RB (recur i s).2)
    (i : Interp) (argv : List String) (hi : RB i) :
    RB (dispatchAux recur i argv).2 := by
  cases argv with
  | nil => exact hi
  | cons name args =>
    cases hc : cmdLookup i.commands name with
    | none =>
      simp only [dispatchAux, hc]
      exact rb_setRes i _
    | some c =>
      cases c with
      | builtin b =>
        simp only [dispatchAux, hc]
        exact rb_runBuiltin i b args hi
      | proc ps body =>
        simp only [dispatchAux, hc]
        exact rb_callProc recur hrec i ps body args

theorem rb_substWord (recur : Interp → Script → Status × Interp)
    (hrec : ∀ i s, RB (recur i s).2) :
    ∀ (segs : List Seg) (i : Interp) (acc : String), RB i →
      RB (substWordAux recur i segs acc).2.1 := by
  intro segs
  induction segs with
  | nil => intro i acc hi; exact hi
  | cons sg rest ih =>
    intro i acc hi
    cases sg with
    | lit s =>
      simp only [substWordAux]
      exact ih i (acc ++ s) hi
    | var n =>
      simp only [substWordAux]
      cases hv : framesGet i.frames n with
      | some v => exact ih i (acc ++ v) hi
      | none => exact rb_setRes i _
    | sub sc =>
      simp only [substWordAux]
      split
      · exact rb_setRes i _
      · rcases hre : recur { i with level := i.level + 1 } sc with ⟨r, i2⟩
        have hp := hrec { i with level := i.level + 1 } sc
        rw [hre] at hp
        cases r with
        | ok => exact ih _ _ hp
        | err => exact hp
        | ret => exact hp
        | brk => exact hp
        | cont => exact hp

theorem rb_substWords (recur : Interp → Script → Status × Interp)
    (hrec : ∀ i s, RB (recur i s).2) :
    ∀ (ws : List Word) (i : Interp) (acc : List String), RB i →
      RB (substWordsAux recur i ws acc).2.1 := by
  intro ws
  induction ws with
  | nil => intro i acc hi; exact hi
  | cons w rest ih =>
    intro i acc hi
    simp only [substWordsAux]
    rcases h1 : substWordAux recur i w "" with ⟨r, i1, s⟩
    have hp := rb_substWord recur hrec w i "" hi
    rw [h1] at hp
    cases r with
    | ok => exact ih i1 _ hp
    | err => exact hp
    | ret => exact hp
    | brk => exact hp
    | cont => exact hp

theorem rb_evalCmd (recur : Interp → Script → Status × Interp)
    (hrec : ∀ i s, RB (recur i s).2)
    (i : Interp) (c : Cmnd) (hi : RB i) :
    RB (evalCmdAux recur i c).2 := by
  unfold evalCmdAux
  rcases hw : substWordsAux recur i c [] with ⟨r, i1, argv⟩
  have hp := rb_substWords recur hrec c i [] hi
  rw [hw] at hp
  cases r with
  | ok =>
    dsimp only
    rcases hd : dispatchAux recur { i1 with active := i1.active + 1 } argv with ⟨r2, i2⟩
    have hp2 := rb_dispatch recur hrec { i1 with active := i1.active + 1 } argv hp
    rw [hd] at hp2
    exact hp2
  | err => exact hp
  | ret => exact hp
  | brk => exact hp
  | cont => exact hp

theorem rb_evalScriptAux (recur : Interp → Script → Status × Interp)
    (hrec : ∀ i s, RB (recur i s).2) :
    ∀ (s : Script) (i : Interp), RB i → RB (evalScriptAux recur i s).2 := by
  intro s
  induction s with
  | nil => intro i hi; exact hi
  | cons c rest ih =>
    intro i hi
    simp only [evalScriptAux]
    rcases h1 : evalCmdAux recur i c with ⟨r, i1⟩
    have hp := rb_evalCmd recur hrec i c hi
    rw [h1] at hp
    cases r with
    | ok => exact ih i1 hp
    | err => exact hp
    | ret => exact hp
    | brk => exact hp
    | cont => exact hp

theorem rb_evalScript : ∀ (f : Nat) (i : Interp) (s : Script),
    RB (evalScript f i s).2 := by
  intro f
  induction f with
  | zero => intro i s; exact rb_setRes i _
  | succ f ih =>
    intro i s
    exact rb_evalScriptAux (evalScript f) ih s (pickle_set_result i "") (rb_setRes i "")

theorem rb_pickle_eval (i : Interp) (s : Script) : RB (pickle_eval i s).2 := by
  unfold pickle_eval
  rcases h : evalScript FUEL i s with ⟨r, i1⟩
  have hp := rb_evalScript FUEL i s
  rw [h] at hp
  cases r with
  | ok => exact hp
  | err => exact hp
  | ret => exact hp
  | brk => exact rb_setRes i1 _
  | cont => exact rb_setRes i1 _

/-- C8: on every interpreter state reachable through evaluation,
set-result, set-variable and command registration, the result is a
single byte string of length at most PICKLE_MAX_STRING = 512. -/
theorem c8_result_bound :
    ∀ i : Interp, Reachable i → i.result.length ≤ PICKLE_MAX_STRING := by
  intro i h
  induction h with
  | init => decide
  | eval j s _ _ => exact rb_pickle_eval j s
  | setResult j s _ _ => exact rb_setRes j s
  | setVar j n v _ ih => exact ih
  | register j n c _ ih => exact ih

/-- C10: constructing an interpreter with no allocator argument (NULL in
the C interface) succeeds, installing the default general-purpose
allocator, and the interpreter behaves identically to one built with
an explicit allocator on every core operation; passing NULL is a
supported case, not an error. -/
theorem c10_null_allocator :
    pickle_new none = (.ok, .defaultAlloc, initInterp) ∧
    (∀ a, pickle_new (some a) = (.ok, a, initInterp)) ∧
    (∀ a, (pickle_new (some a)).1 = (pickle_new none).1) ∧
    (∀ a s, pickle_eval (pickle_new (some a)).2.2 s
       = pickle_eval (pickle_new none).2.2 s) ∧
    (∀ a n c, pickle_register_command (pickle_new (some a)).2.2 n c
       = pickle_register_command (pickle_new none).2.2 n c) ∧
    (∀ a n, pickle_get_var (pickle_new (some a)).2.2 n
       = pickle_get_var (pickle_new none).2.2 n) ∧
    (∀ a n v, pickle_set_var (pickle_new (some a)).2.2 n v
       = pickle_set_var (pickle_new none).2.2 n v) := by
  exact ⟨rfl, fun a => rfl, fun a => rfl, fun a s => rfl, fun a n c => rfl,
         fun a n => rfl, fun a n v => rfl⟩

/-! Lemmas about the pool allocator. -/

theorem get?_set_self :
    ∀ (l : List Bool) (i : Nat) (b : Bool), i < l.length →
      (l.set i b).get? i = some b := by
  intro l
  induction l with
  | nil => intro i b h; simp at h
  | cons a rest ih =>
    intro i b h
    cases i with
    | zero => simp
    | succ j => simpa using ih j b (by simpa using h)

theorem get?_some_lt :
    ∀ (l : List Bool) (i : Nat) (x : Bool), l.get? i = some x → i < l.length := by
  intro l i x h
  rcases List.get?_eq_some.mp h with ⟨hl, _⟩
  exact hl

theorem firstFreeIdx_lt :
    ∀ (l : List Bool) (i : Nat), firstFreeIdx l = some i → i < l.length := by
  intro l
  induction l with
  | nil => intro i h; simp [firstFreeIdx] at h
  | cons b rest ih =>
    intro i h
    cases b with
    | true =>
      simp [firstFreeIdx] at h
      simp only [List.length_cons]
      omega
    | false =>
      simp only [firstFreeIdx, Bool.false_eq_true, if_false, ite_false] at h
      cases hr : firstFreeIdx rest with
      | none => rw [hr] at h; simp at h
      | some j =>
        rw [hr] at h
        simp at h
        have := ih j hr
        simp only [List.length_cons]
        omega

theorem arenasFree_twice :
    ∀ (as as2 : List block_arena_t) (a : Nat),
      arenasFree as a = .ok as2 → arenasFree as2 a = .error .doubleFree := by
  intro as
  induction as with
  | nil => intro as2 a h; simp [arenasFree] at h
  | cons ar rest ih =>
    intro as2 a h
    by_cases hc : ar.base ≤ a ∧ a < ar.base + ar.blocksz * ar.bits
    · rw [arenasFree, if_pos hc] at h
      cases hg : ar.freemap.get? ((a - ar.base) / ar.blocksz) with
      | none => rw [hg] at h; exact absurd h (by simp)
      | some bb =>
        cases bb with
        | true => rw [hg] at h; exact absurd h (by simp)
        | false =>
          rw [hg] at h
          have has2 : ({ ar with
              freemap := ar.freemap.set ((a - ar.base) / ar.blocksz) true,
              active := ar.active - 1 } :: rest) = as2 := by
            injection h
          subst has2
          rw [arenasFree]
          rw [if_pos (by dsimp only; exact hc)]
          dsimp only
          rw [get?_set_self _ _ _ (get?_some_lt _ _ _ hg)]
    · rw [arenasFree, if_neg hc] at h
      cases hr : arenasFree rest a with
      | error e => rw [hr] at h; exact absurd h (by simp)
      | ok rest2 =>
        rw [hr] at h
        have has2 : (ar :: rest2) = as2 := by injection h
        subst has2
        rw [arenasFree, if_neg hc]
        rw [ih rest2 a hr]

theorem arenasFree_foreign :
    ∀ (as : List block_arena_t) (a : Nat),
      (∀ ar ∈ as, ¬(ar.base ≤ a ∧ a < ar.base + ar.blocksz * ar.bits)) →
      arenasFree as a = .error .notOwned := by
  intro as
  induction as with
  | nil => intro a h; rfl
  | cons ar rest ih =>
    intro a h
    rw [arenasFree, if_neg (h ar (by simp))]
    rw [ih a (fun x hx => h x (by simp [hx]))]

theorem pool_free_twice :
    ∀ (p p2 : pool_t) (a : Nat),
      pool_free p a = .ok p2 → pool_free p2 a = .error .doubleFree := by
  intro p p2 a h
  unfold pool_free at h ⊢
  cases hf : arenasFree p.arenas a with
  | error e => rw [hf] at h; exact absurd h (by simp)
  | ok as2 =>
    rw [hf] at h
    have hp2 : ({ p with arenas := as2, freed := p.freed + 1,
                         active := p.active - 1 } : pool_t) = p2 := by
      injection h
    subst hp2
    dsimp only
    rw [arenasFree_twice p.arenas as2 a hf]

/-- C6: releasing an address owned by no arena, and releasing a block
that is already free, are reported through the allocator's error
channel as invariant violations, never silently accepted. -/
theorem c6_release_errors :
    (∀ (p : pool_t) (a : Nat),
      (∀ ar ∈ p.arenas, ¬(ar.base ≤ a ∧ a < ar.base + ar.blocksz * ar.bits)) →
      pool_free p a = .error .notOwned) ∧
    (∀ (p p2 : pool_t) (a : Nat),
      pool_free p a = .ok p2 → pool_free p2 a = .error .doubleFree) ∧
    pool_free mainPool 0 = .error .notOwned ∧
    exOk? (pool_free oneBlockPool 1) = some freedPool ∧
    pool_free freedPool 1 = .error .doubleFree := by
  refine ⟨?_, pool_free_twice, by decide, by decide, by decide⟩
  intro p a h
  unfold pool_free
  rw [arenasFree_foreign p.arenas a h]

theorem arenasAlloc_none_of_small :
    ∀ (as : List block_arena_t) (sz : Nat),
      (∀ ar ∈ as, ar.blocksz < sz) → arenasAlloc as sz = none := by
  intro as
  induction as with
  | nil => intro sz h; rfl
  | cons ar rest ih =>
    intro sz h
    rw [arenasAlloc, if_neg (by have := h ar (by simp); omega)]
    rw [ih sz (fun x hx => h x (by simp [hx]))]

theorem arenasAlloc_none_of_full :
    ∀ (as : List block_arena_t) (sz : Nat) (ar : block_arena_t),
      as.find? (fun x => decide (sz ≤ x.blocksz)) = some ar →
      firstFreeIdx ar.freemap = none →
      arenasAlloc as sz = none := by
  intro as
  induction as with
  | nil => intro sz ar h hff; simp at h
  | cons a rest ih =>
    intro sz ar hfind hff
    by_cases h : sz ≤ a.blocksz
    · rw [List.find?_cons_of_pos _ (by simpa using h)] at hfind
      have ha : a = ar := by injection hfind
      subst ha
      rw [arenasAlloc, if_pos h, hff]
    · rw [List.find?_cons_of_neg _ (by simpa using h)] at hfind
      rw [arenasAlloc, if_neg h, ih sz ar hfind hff]

theorem arenasAlloc_some :
    ∀ (as : List block_arena_t) (sz : Nat) (ar : block_arena_t) (idx : Nat),
      as.find? (fun x => decide (sz ≤ x.blocksz)) = some ar →
      firstFreeIdx ar.freemap = some idx →
      ∃ as2, arenasAlloc as sz = some (as2, ar.base + idx * ar.blocksz) := by
  intro as
  induction as with
  | nil => intro sz ar idx h hff; simp at h
  | cons a rest ih =>
    intro sz ar idx hfind hff
    by_cases h : sz ≤ a.blocksz
    · rw [List.find?_cons_of_pos _ (by simpa using h)] at hfind
      have ha : a = ar := by injection hfind
      subst ha
      refine ⟨{ a with freemap := a.freemap.set idx false, active := a.active + 1,
                       maxa := max a.maxa (a.active + 1) } :: rest, ?_⟩
      rw [arenasAlloc, if_pos h, hff]
    · rw [List.find?_cons_of_neg _ (by simpa using h)] at hfind
      obtain ⟨as2, h2⟩ := ih sz ar idx hfind hff
      refine ⟨a :: as2, ?_⟩
      rw [arenasAlloc, if_neg h, h2]

/-- C4: allocation selects the smallest configured size class whose
block size fits the request and fails cleanly when no class fits or
when the chosen class has no free block (no fallthrough to a larger
class); on the size-class table of main.c, the (512, 8) class serves 8
consecutive allocations, the 9th fails, and after releasing any one
block exactly one further allocation of that size succeeds, reusing
the released block. -/
theorem c4_allocate :
    (∀ (p : pool_t) (sz : Nat),
      (∀ ar ∈ p.arenas, ar.blocksz < sz) → pool_malloc p sz = none) ∧
    (∀ (p : pool_t) (sz : Nat) (ar : block_arena_t),
      p.arenas.find? (fun x => decide (sz ≤ x.blocksz)) = some ar →
      firstFreeIdx ar.freemap = none → pool_malloc p sz = none) ∧
    (∀ (p : pool_t) (sz : Nat) (ar : block_arena_t) (idx : Nat),
      p.arenas.find? (fun x => decide (sz ≤ x.blocksz)) = some ar →
      firstFreeIdx ar.freemap = some idx →
      ar.freemap.length = ar.bits →
      0 < ar.blocksz →
      ∃ p2, pool_malloc p sz = some (p2, ar.base + idx * ar.blocksz) ∧
        ar.base ≤ ar.base + idx * ar.blocksz ∧
        ar.base + idx * ar.blocksz < ar.base + ar.blocksz * ar.bits) ∧
    (mallocN mainPool 512 8).isSome = true ∧
    (mallocN mainPool 512 8).map (fun q => pool_malloc q 512) = some none ∧
    (∀ k, k < 8 →
      (pool_malloc (afterFree k) 512).map (fun q => q.2) = some (24577 + 512 * k) ∧
      (pool_malloc (afterFree k) 512).bind (fun q => pool_malloc q.1 512) = none) := by
  refine ⟨?_, ?_, ?_, by decide, by decide, by decide⟩
  · intro p sz h
    unfold pool_malloc
    rw [arenasAlloc_none_of_small p.arenas sz h]
  · intro p sz ar hfind hff
    unfold pool_malloc
    rw [arenasAlloc_none_of_full p.arenas sz ar hfind hff]
  · intro p sz ar idx hfind hff hlen hbpos
    obtain ⟨as2, h2⟩ := arenasAlloc_some p.arenas sz ar idx hfind hff
    have hidx : idx < ar.bits := by
      have := firstFreeIdx_lt ar.freemap idx hff
      omega
    have hmul : (idx + 1) * ar.blocksz ≤ ar.bits * ar.blocksz :=
      Nat.mul_le_mul_right ar.blocksz hidx
    have hmul2 : idx * ar.blocksz + ar.blocksz ≤ ar.bits * ar.blocksz := by
      have : (idx + 1) * ar.blocksz = idx * ar.blocksz + ar.blocksz := by ring
      omega
    refine ⟨{ p with arenas := as2, allocs := p.allocs + 1, active := p.active + 1,
                     maxp := max p.maxp (p.active + 1), total := p.total + 1 },
            ?_, by omega, ?_⟩
    · unfold pool_malloc
      rw [h2]
    · have hcomm : ar.blocksz * ar.bits = ar.bits * ar.blocksz := Nat.mul_comm _ _
      rw [hcomm]
      omega

/-- C3: reallocation returns the pointer unchanged when the new size
fits the block's current size class; growth into a larger class
returns a new block whose first min(old class size, new size) bytes
equal the old content and releases the old block (a second release of
the old address then reports a double free); and a failed allocation
during growth makes reallocation signal failure without releasing
anything. -/
theorem c3_reallocate :
    (∀ (p : pool_t) (mem : Nat → Nat) (a newsz : Nat) (ar : block_arena_t),
      findOwner p.arenas a = some ar →
      newsz ≤ ar.blocksz →
      pool_realloc p mem a newsz = some (p, mem, a)) ∧
    (∀ (p : pool_t) (mem : Nat → Nat) (a newsz : Nat) (ar : block_arena_t)
        (p1 : pool_t) (a2 : Nat) (p2 : pool_t),
      findOwner p.arenas a = some ar →
      ar.blocksz < newsz →
      pool_malloc p newsz = some (p1, a2) →
      pool_free p1 a = .ok p2 →
      ∃ M2, pool_realloc p mem a newsz
          = some ({ p2 with relocations := p2.relocations + 1 }, M2, a2) ∧
        (∀ k, k < min ar.blocksz newsz → M2 (a2 + k) = mem (a + k)) ∧
        pool_free { p2 with relocations := p2.relocations + 1 } a
          = .error .doubleFree) ∧
    (∀ (p : pool_t) (mem : Nat → Nat) (a newsz : Nat) (ar : block_arena_t),
      findOwner p.arenas a = some ar →
      ar.blocksz < newsz →
      pool_malloc p newsz = none →
      pool_realloc p mem a newsz = none) := by
  refine ⟨?_, ?_, ?_⟩
  · intro p mem a newsz ar hfo hle
    unfold pool_realloc
    rw [hfo]
    dsimp only
    rw [if_pos hle]
  · intro p mem a newsz ar p1 a2 p2 hfo hlt hm hf
    have hdf : pool_free { p2 with relocations := p2.relocations + 1 } a
        = .error .doubleFree := by
      unfold pool_free at hf ⊢
      cases ha1 : arenasFree p1.arenas a with
      | error e => rw [ha1] at hf; exact absurd hf (by simp)
      | ok as2 =>
        rw [ha1] at hf
        have hp2 : ({ p1 with arenas := as2, freed := p1.freed + 1, active := p1.active - 1 } : pool_t) = p2 := by
          injection hf
        subst hp2
        dsimp only
        rw [arenasFree_twice p1.arenas as2 a ha1]
    refine ⟨fun x => if a2 ≤ x ∧ x < a2 + min ar.blocksz newsz
              then mem (a + (x - a2)) else mem x, ?_, ?_, hdf⟩
    · unfold pool_realloc
      rw [hfo]
      dsimp only
      rw [if_neg (by omega)]
      rw [hm]
      dsimp only
      rw [hf]
    · intro k hk
      dsimp only
      rw [if_pos (by omega)]
      have : a + (a2 + k - a2) = a + k := by omega
      rw [this]
  · intro p mem a newsz ar hfo hlt hm
    unfold pool_realloc
    rw [hfo]
    dsimp only
    rw [if_neg (by omega), hm]

/-! Witnesses: each theorem with hypotheses applied at a concrete input. -/

theorem c1_proc_invocation_witness :
    (callProcAux (evalScript 5) initInterp ["x"] doubleBody ["21"]).2.frames
      = initInterp.frames ∧
    pickle_eval doubleInterp doubleCall = (.ok, { doubleInterp with result := "42" }) :=
  ⟨(c1_proc_invocation.1 5 initInterp ["x"] doubleBody ["21"]
      (by decide) (by decide)).1,
   c1_proc_invocation.2⟩

theorem c2_recursion_limit_witness :
    pickle_eval initInterp (nest (PICKLE_MAX_RECURSION + 1))
      = (.err, { initInterp with result := "recursion limit exceeded" }) :=
  (c2_recursion_limit initInterp rfl rfl).2.1.1

theorem c3_reallocate_witness :
    ∃ M2, pool_realloc oneBlockPool (fun x => x + 7) 1 100
        = some ({ growFreed with relocations := growFreed.relocations + 1 },
                M2, growStep.2) ∧
      (∀ k, k < min owner1.blocksz 100 →
        M2 (growStep.2 + k) = (fun x => x + 7) (1 + k)) ∧
      pool_free { growFreed with relocations := growFreed.relocations + 1 } 1
        = .error .doubleFree :=
  c3_reallocate.2.1 oneBlockPool (fun x => x + 7) 1 100 owner1
    growStep.1 growStep.2 growFreed (by decide) (by decide) (by decide) (by decide)

theorem c4_allocate_witness :
    ∃ p2, pool_malloc mainPool 512
        = some (p2, class512.base + 0 * class512.blocksz) ∧
      class512.base ≤ class512.base + 0 * class512.blocksz ∧
      class512.base + 0 * class512.blocksz
        < class512.base + class512.blocksz * class512.bits :=
  c4_allocate.2.2.1 mainPool 512 class512 0
    (by decide) (by decide) (by decide) (by decide)

theorem c5_variable_lookup_witness :
    (evalScript (5 + 1) initInterp [[[Seg.var "q"]]]).1 = .err ∧
    (evalScript (5 + 1) initInterp [[[Seg.var "q"]]]).2.result
      = "undefined variable" :=
  c5_variable_lookup.2.2.2 initInterp "q" 5 (by decide)

theorem c6_release_errors_witness :
    pool_free freedPool 1 = .error .doubleFree :=
  c6_release_errors.2.1 oneBlockPool freedPool 1 (by decide)

theorem c7_break_toplevel_witness :
    pickle_eval initInterp [[[Seg.lit "break"]]]
      = (.err, pickle_set_result
          (evalScript FUEL initInterp [[[Seg.lit "break"]]]).2 "break outside loop") :=
  c7_break_toplevel.2.1 initInterp [[[Seg.lit "break"]]] (by decide)

theorem c8_result_bound_witness :
    initInterp.result.length ≤ PICKLE_MAX_STRING :=
  c8_result_bound initInterp Reachable.init

end Pickle
